import Mathlib

/-!
Shallow embedding of graft's durable election-state log (`log.go`).

Bytes are modeled as `List Nat`.  The external libraries used by the source
(`encoding/json`, `crypto/sha1`, `os`) are modeled by executable Lean
functions at the boundary: the JSON codec is modeled by an injective,
self-delimiting byte codec with a total decoder that fails on bytes that are
not an encoding; `sha1.Sum` is modeled by an executable function returning a
fixed-length 20-byte digest; the file system is modeled by an association
list from paths to byte contents.  The four repository functions
(`initLog`, `closeLog`, `writeState`, `readState`) are translated from
`log.go` preserving their control flow.
-/

deriving instance DecidableEq for Except

namespace Graft

/-- Little-endian base-256 digits of `n`, fuel-driven so that it reduces by
structural recursion (the first argument is fuel, always called with `n`). -/
def natToBytesAux : Nat → Nat → List Nat
  | 0, _ => []
  | _ + 1, 0 => []
  | fuel + 1, n + 1 => ((n + 1) % 256) :: natToBytesAux fuel ((n + 1) / 256)

/-- Little-endian base-256 byte representation of a natural number. -/
def natToBytes (n : Nat) : List Nat :=
  natToBytesAux n n

/-- Inverse of `natToBytes`: reassemble a natural number from little-endian
base-256 digits. -/
def bytesToNat (bs : List Nat) : Nat :=
  bs.foldr (fun b acc => b + 256 * acc) 0

theorem bytesToNat_natToBytesAux (fuel : Nat) :
    ∀ n : Nat, n ≤ fuel → bytesToNat (natToBytesAux fuel n) = n := by
  induction fuel with
  | zero =>
    intro n hn
    interval_cases n
    rfl
  | succ f ih =>
    intro n hn
    match n with
    | 0 => rfl
    | m + 1 =>
      have hdiv : (m + 1) / 256 < m + 1 := Nat.div_lt_self (Nat.succ_pos m) (by omega)
      have hle : (m + 1) / 256 ≤ f := by omega
      show bytesToNat (((m + 1) % 256) :: natToBytesAux f ((m + 1) / 256)) = m + 1
      have := ih ((m + 1) / 256) hle
      simp only [bytesToNat, List.foldr] at this ⊢
      rw [this]
      omega

theorem bytesToNat_natToBytes (n : Nat) : bytesToNat (natToBytes n) = n :=
  bytesToNat_natToBytesAux n n (Nat.le_refl n)

/-- Self-delimiting encoding of a byte list: each byte is tagged with a
leading `1`, and a `0` terminates the list.  Models one field of the
structured (JSON) encoding used by the source. -/
def encList (bs : List Nat) : List Nat :=
  bs.foldr (fun b acc => 1 :: b :: acc) [0]

/-- Decoder for `encList`: returns the decoded byte list and the remaining
input, or `none` when the bytes are not a valid encoding. -/
def decList : List Nat → Option (List Nat × List Nat)
  | 0 :: rest => some ([], rest)
  | 1 :: b :: rest =>
    match decList rest with
    | some (bs, r) => some (b :: bs, r)
    | none => none
  | _ => none

theorem decList_encList_append (bs rest : List Nat) :
    decList (encList bs ++ rest) = some (bs, rest) := by
  induction bs with
  | nil => rfl
  | cons b tl ih =>
    show decList (1 :: b :: (encList tl ++ rest)) = some (b :: tl, rest)
    simp only [decList, ih]

theorem encList_ne_nil (bs : List Nat) : encList bs ≠ [] := by
  cases bs <;> simp [encList]

/-- UTF-32 code points of a string, as bytes-model values. -/
def strToBytes (s : String) : List Nat :=
  s.toList.map Char.toNat

/-- Inverse of `strToBytes`. -/
def bytesToStr (bs : List Nat) : String :=
  ⟨bs.map Char.ofNat⟩

theorem bytesToStr_strToBytes (s : String) : bytesToStr (strToBytes s) = s := by
  simp only [bytesToStr, strToBytes, List.map_map]
  have : (Char.ofNat ∘ Char.toNat) = id := by
    funext c
    exact Char.ofNat_toNat c
  rw [this, List.map_id]
  rfl

/-- `log.go` line 26: the logical persisted state.  `CurrentTerm` is a Go
`uint64`, modeled as `Nat` (the source performs no wrapping arithmetic on
it); `VotedFor` is a string. -/
structure persistentState where
  CurrentTerm : Nat
  VotedFor : String
deriving DecidableEq, Repr

/-- `log.go` line 23: the on-disk wrapper pairing a digest with the payload
bytes. -/
structure envelope where
  SHA : List Nat
  Data : List Nat
deriving DecidableEq, Repr

/-- Pad a byte list on the right with zeros up to length 20. -/
def pad20 (l : List Nat) : List Nat :=
  l ++ List.replicate (20 - l.length) 0

/-- Model of `crypto/sha1`'s `sha1.Sum`: an executable digest function with a
fixed 20-byte output.  The repository's logic only depends on the digest
being a deterministic function of the input with fixed width 20. -/
def sha1Sum (bs : List Nat) : List Nat :=
  pad20 (natToBytes (bs.foldl (fun acc b => (acc * 31 + b + 1) % (2 ^ 160)) 5))

/-- Model of `json.Marshal` on `persistentState`: both fields in order, each
self-delimited. -/
def marshalPS (ps : persistentState) : List Nat :=
  encList (natToBytes ps.CurrentTerm) ++ encList (strToBytes ps.VotedFor)

/-- Model of `json.Unmarshal` into `persistentState`: fails (`none`) when the
bytes are not an encoding of a state. -/
def unmarshalPS (bs : List Nat) : Option persistentState :=
  match decList bs with
  | none => none
  | some (tb, r1) =>
    match decList r1 with
    | none => none
    | some (sb, r2) =>
      if r2 = [] then some ⟨bytesToNat tb, bytesToStr sb⟩ else none

/-- Model of `json.Marshal` on `envelope`: `SHA` then `Data`, each
self-delimited. -/
def marshalEnv (e : envelope) : List Nat :=
  encList e.SHA ++ encList e.Data

/-- Model of `json.Unmarshal` into `envelope`. -/
def unmarshalEnv (bs : List Nat) : Option envelope :=
  match decList bs with
  | none => none
  | some (sha, r1) =>
    match decList r1 with
    | none => none
    | some (data, r2) =>
      if r2 = [] then some ⟨sha, data⟩ else none

theorem unmarshalPS_marshalPS (ps : persistentState) :
    unmarshalPS (marshalPS ps) = some ps := by
  have h1 := decList_encList_append (natToBytes ps.CurrentTerm)
    (encList (strToBytes ps.VotedFor))
  have h2 := decList_encList_append (strToBytes ps.VotedFor) []
  rw [List.append_nil] at h2
  simp [unmarshalPS, marshalPS, h1, h2,
    bytesToNat_natToBytes, bytesToStr_strToBytes]

theorem unmarshalEnv_marshalEnv (e : envelope) :
    unmarshalEnv (marshalEnv e) = some e := by
  have h1 := decList_encList_append e.SHA (encList e.Data)
  have h2 := decList_encList_append e.Data []
  rw [List.append_nil] at h2
  simp [unmarshalEnv, marshalEnv, h1, h2]

theorem marshalEnv_length_pos (e : envelope) : 0 < (marshalEnv e).length := by
  simp only [marshalEnv, List.length_append]
  have := encList_ne_nil e.SHA
  cases h : encList e.SHA with
  | nil => exact absurd h this
  | cons a l => simp [h]

/-- The error values of the repository, plus the taxonomy of §7 of the spec:
`noState` models `ErrLogNoState`, `corrupt` models `ErrLogCorrupt`,
`malformedEnvelope`/`malformedState` model the (non-nil, distinct) errors
returned by `json.Unmarshal` on unparseable bytes, and `ioError` models a
failing `os` call. -/
inductive GErr where
  | noState
  | corrupt
  | malformedEnvelope
  | malformedState
  | ioError
deriving DecidableEq, Repr

/-- Spec §7: malformed-structure failures and digest failures are all "a form
of `CorruptState`"; `noState` and I/O failures are not. -/
def isCorruptForm : GErr → Bool
  | .corrupt => true
  | .malformedEnvelope => true
  | .malformedState => true
  | _ => false

/-- The file system: an association list from paths to file contents.  The
most recent entry for a path shadows older ones. -/
abbrev FS := List (String × List Nat)

/-- Model of `os.ReadFile`: `none` when no file exists at `p`. -/
def fsRead (fs : FS) (p : String) : Option (List Nat) :=
  (fs.find? (fun e => e.1 == p)).map (fun e => e.2)

/-- Model of `os.WriteFile`: whole-file replace. -/
def fsWrite (fs : FS) (p : String) (v : List Nat) : FS :=
  (p, v) :: fs

/-- Model of `os.Remove`: fails (`none`) when no file exists at `p`. -/
def fsRemove (fs : FS) (p : String) : Option FS :=
  if (fsRead fs p).isSome then
    some (fs.filter (fun e => !(e.1 == p)))
  else
    none

/-- The fields of `Node` that `log.go` touches: the in-memory term and vote
and the backing-file path. -/
structure Node where
  term : Nat
  vote : String
  logPath : String
deriving DecidableEq, Repr

/-- `log.go` lines 101-114: the integrity check.  Primary scheme first
(`sha1.Sum(env.Data) == env.SHA`); on failure, the legacy fallback
(`env.Data ++ sha1.Sum(nil) == env.SHA`); corrupt when both fail. -/
def verify (env : envelope) : Bool :=
  if sha1Sum env.Data = env.SHA then
    true
  else if env.Data ++ sha1Sum [] = env.SHA then
    true
  else
    false

/-- `log.go` lines 87-121, `readState`.  Returns the result together with the
file system after the call; `readState` performs no writes, so the returned
file system is the input in every branch.  Branches in source order: read
failure, empty file (`ErrLogNoState`), envelope decode failure, digest check
(`ErrLogCorrupt`), state decode failure, success. -/
def readState (fs : FS) (path : String) :
    Except GErr persistentState × FS :=
  match fsRead fs path with
  | none => (.error .ioError, fs)
  | some buf =>
    if buf.length = 0 then
      (.error .noState, fs)
    else
      match unmarshalEnv buf with
      | none => (.error .malformedEnvelope, fs)
      | some env =>
        if verify env then
          match unmarshalPS env.Data with
          | none => (.error .malformedState, fs)
          | some ps => (.ok ps, fs)
        else
          (.error .corrupt, fs)

/-- `log.go` line 32: `os.OpenFile(path, O_RDWR|O_CREATE, 0660)` followed by
`Close` — creates an empty file when none exists, otherwise leaves the file
as it is. -/
def ensureFile (fs : FS) (path : String) : FS :=
  match fsRead fs path with
  | some _ => fs
  | none => fsWrite fs path []

/-- `log.go` lines 31-51, `initLog`: ensure the backing file exists, record
the path on the node, read prior state; `ErrLogNoState` is swallowed (fresh
node keeps its defaults), any other read error is propagated, and recovered
state hydrates the node's term and vote. -/
def initLog (n : Node) (fs : FS) (path : String) :
    Except GErr (Node × FS) :=
  let fs1 := ensureFile fs path
  let n1 : Node := { n with logPath := path }
  match (readState fs1 path).1 with
  | .error e => if e = .noState then .ok (n1, fs1) else .error e
  | .ok ps =>
    .ok ({ n1 with term := ps.CurrentTerm, vote := ps.VotedFor }, fs1)

/-- The state snapshot `writeState` takes under the node's lock
(`log.go` lines 60-66). -/
def nodeState (n : Node) : persistentState :=
  ⟨n.term, n.vote⟩

/-- `log.go` lines 59-85, `writeState`: marshal the state, wrap it in an
envelope whose digest is the primary-scheme hash of the payload, marshal the
envelope, and overwrite the backing file.  (`json.Marshal` cannot fail on
these types and the write-failure path of `os.WriteFile` is outside the
model, so the function is total.) -/
def writeState (n : Node) (fs : FS) : FS :=
  let buf := marshalPS (nodeState n)
  let env : envelope := ⟨sha1Sum buf, buf⟩
  fsWrite fs n.logPath (marshalEnv env)

/-- `log.go` lines 53-57, `closeLog`: remove the backing file, clear the
node's path unconditionally, and return the removal error (`none` on
success). -/
def closeLog (n : Node) (fs : FS) : Node × FS × Option GErr :=
  match fsRemove fs n.logPath with
  | some fs2 => ({ n with logPath := "" }, fs2, none)
  | none => ({ n with logPath := "" }, fs, some .ioError)

/-- A concrete node with default in-memory state, for concrete evaluations. -/
def sampleNode : Node :=
  ⟨0, "", ""⟩

theorem fsRead_fsWrite_self (fs : FS) (p : String) (v : List Nat) :
    fsRead (fsWrite fs p v) p = some v := by
  simp [fsRead, fsWrite, List.find?]

theorem fsRead_filter_self (fs : FS) (p : String) :
    fsRead (fs.filter (fun e => !(e.1 == p))) p = none := by
  simp only [fsRead, Option.map_eq_none']
  rw [List.find?_eq_none]
  intro x hx
  have hmem := List.mem_filter.mp hx
  simpa using hmem.2

theorem readState_empty (fs : FS) (path : String)
    (h : fsRead fs path = some []) :
    readState fs path = (.error .noState, fs) := by
  simp [readState, h]

theorem readState_good_file (fs : FS) (path : String) (e : envelope)
    (ps : persistentState)
    (hread : fsRead fs path = some (marshalEnv e))
    (hver : verify e = true)
    (hps : unmarshalPS e.Data = some ps) :
    readState fs path = (.ok ps, fs) := by
  have hlen : ¬ (marshalEnv e).length = 0 := by
    have := marshalEnv_length_pos e
    omega
  simp only [readState, hread, if_neg hlen, unmarshalEnv_marshalEnv, hver,
    if_true, hps]

/-- C1: writing a state with `writeState` and then reading the same backing
file with `readState` yields a state whose `CurrentTerm` and `VotedFor` both
equal the original, and a second node initialized with `initLog` against the
same file after the write observes the same term and vote. -/
theorem write_read_roundtrip (n : Node) (fs : FS) :
    (readState (writeState n fs) n.logPath).1 = .ok (nodeState n) ∧
    (∀ n2 : Node,
      initLog n2 (writeState n fs) n.logPath =
        .ok ({ n2 with logPath := n.logPath, term := n.term, vote := n.vote },
             writeState n fs)) := by
  have hr : fsRead (writeState n fs) n.logPath =
      some (marshalEnv ⟨sha1Sum (marshalPS (nodeState n)),
                        marshalPS (nodeState n)⟩) :=
    fsRead_fsWrite_self fs n.logPath _
  have hgood : readState (writeState n fs) n.logPath =
      (.ok (nodeState n), writeState n fs) := by
    refine readState_good_file (writeState n fs) n.logPath
      ⟨sha1Sum (marshalPS (nodeState n)), marshalPS (nodeState n)⟩
      (nodeState n) hr ?_ (unmarshalPS_marshalPS _)
    simp [verify]
  refine ⟨by rw [hgood], ?_⟩
  intro n2
  have hens : ensureFile (writeState n fs) n.logPath = writeState n fs := by
    simp [ensureFile, hr]
  simp only [initLog, hens, hgood]
  rfl

/-- C2: an envelope whose stored digest equals the payload concatenated with
the hash of empty input (the legacy scheme) is accepted by `readState`, which
returns the state decoded from the payload rather than `ErrLogCorrupt`; and
acceptance is exactly "primary check passes or legacy check passes", never
requiring both (the fallback only matters once the primary comparison
fails). -/
theorem legacy_digest_accepted :
    (∀ (data : List Nat) (ps : persistentState) (fs : FS) (path : String),
        unmarshalPS data = some ps →
        (readState (fsWrite fs path
            (marshalEnv ⟨data ++ sha1Sum [], data⟩)) path).1 = .ok ps) ∧
    (∀ e : envelope, verify e = true ↔
        (sha1Sum e.Data = e.SHA ∨ e.Data ++ sha1Sum [] = e.SHA)) := by
  constructor
  · intro data ps fs path hps
    have hver : verify ⟨data ++ sha1Sum [], data⟩ = true := by
      simp [verify]
    have hgood := readState_good_file
      (fsWrite fs path (marshalEnv ⟨data ++ sha1Sum [], data⟩)) path
      ⟨data ++ sha1Sum [], data⟩ ps
      (fsRead_fsWrite_self fs path _) hver hps
    rw [hgood]
  · intro e
    constructor
    · intro h
      by_cases h1 : sha1Sum e.Data = e.SHA
      · exact Or.inl h1
      · by_cases h2 : e.Data ++ sha1Sum [] = e.SHA
        · exact Or.inr h2
        · simp [verify, h1, h2] at h
    · intro h
      rcases h with h1 | h2
      · simp [verify, h1]
      · simp [verify, h2]

/-- Witness for C2 at a concrete legacy-scheme file. -/
theorem legacy_digest_accepted_witness :
    (readState (fsWrite [] "p"
        (marshalEnv ⟨marshalPS ⟨1, ""⟩ ++ sha1Sum [], marshalPS ⟨1, ""⟩⟩))
      "p").1 = .ok ⟨1, ""⟩ :=
  legacy_digest_accepted.1 (marshalPS ⟨1, ""⟩) ⟨1, ""⟩ [] "p" (by decide)

/-- C3: a non-empty file decoding to an envelope whose digest matches neither
the primary scheme nor the legacy scheme makes `readState` fail with
`ErrLogCorrupt`, with no further fallback. -/
theorem both_digests_fail_corrupt (fs : FS) (path : String)
    (buf : List Nat) (e : envelope)
    (hread : fsRead fs path = some buf) (hne : buf ≠ [])
    (hdec : unmarshalEnv buf = some e)
    (h1 : sha1Sum e.Data ≠ e.SHA) (h2 : e.Data ++ sha1Sum [] ≠ e.SHA) :
    (readState fs path).1 = .error .corrupt := by
  have hlen : ¬ buf.length = 0 := by
    cases buf
    · exact absurd rfl hne
    · simp
  have hver : verify e = false := by
    simp [verify, h1, h2]
  simp [readState, hread, hne, hdec, hver]

/-- Witness for C3 at a concrete doubly-mismatched envelope. -/
theorem both_digests_fail_corrupt_witness :
    (readState [("p", marshalEnv ⟨[300], [2]⟩)] "p").1 = .error .corrupt :=
  both_digests_fail_corrupt [("p", marshalEnv ⟨[300], [2]⟩)] "p"
    (marshalEnv ⟨[300], [2]⟩) ⟨[300], [2]⟩
    (by decide) (by decide) (by decide) (by decide) (by decide)

/-- C4: a zero-length backing file makes `readState` fail with
`ErrLogNoState`, never with `ErrLogCorrupt`. -/
theorem empty_file_no_state (fs : FS) (path : String)
    (h : fsRead fs path = some []) :
    (readState fs path).1 = .error .noState ∧
    (readState fs path).1 ≠ .error .corrupt := by
  rw [readState_empty fs path h]
  exact ⟨rfl, by simp⟩

/-- Witness for C4 at a concrete empty file. -/
theorem empty_file_no_state_witness :
    (readState [("p", [])] "p").1 = .error .noState ∧
    (readState [("p", [])] "p").1 ≠ .error .corrupt :=
  empty_file_no_state [("p", [])] "p" (by decide)

/-- C5: after `writeState`, the persisted envelope's digest equals the
primary-scheme hash of exactly the serialized state stored in the payload. -/
theorem writeState_digest (n : Node) (fs : FS) :
    ∃ env : envelope,
      fsRead (writeState n fs) n.logPath = some (marshalEnv env) ∧
      unmarshalEnv (marshalEnv env) = some env ∧
      env.Data = marshalPS (nodeState n) ∧
      env.SHA = sha1Sum env.Data := by
  refine ⟨⟨sha1Sum (marshalPS (nodeState n)), marshalPS (nodeState n)⟩,
    ?_, unmarshalEnv_marshalEnv _, rfl, rfl⟩
  exact fsRead_fsWrite_self fs n.logPath _

/-- C6: a non-empty file whose bytes do not parse as an envelope, and an
envelope whose payload does not parse as a state, both make `readState` fail
with an error in the `CorruptState` family of the spec's taxonomy
(`isCorruptForm`). -/
theorem malformed_corrupt_form :
    (∀ (fs : FS) (path : String) (buf : List Nat),
        fsRead fs path = some buf → buf ≠ [] → unmarshalEnv buf = none →
        (readState fs path).1 = .error .malformedEnvelope ∧
        isCorruptForm .malformedEnvelope = true) ∧
    (∀ (fs : FS) (path : String) (buf : List Nat) (e : envelope),
        fsRead fs path = some buf → unmarshalEnv buf = some e →
        verify e = true → unmarshalPS e.Data = none →
        (readState fs path).1 = .error .malformedState ∧
        isCorruptForm .malformedState = true) := by
  constructor
  · intro fs path buf hread hne hdec
    refine ⟨?_, rfl⟩
    simp [readState, hread, hne, hdec]
  · intro fs path buf e hread hdec hver hps
    have hne : buf ≠ [] := by
      intro hnil
      rw [hnil] at hdec
      exact absurd hdec (by simp [unmarshalEnv, decList])
    refine ⟨?_, rfl⟩
    simp [readState, hread, hne, hdec, hver, hps]

/-- Witness for C6 at a concrete unparseable file and a concrete envelope
with an unparseable payload. -/
theorem malformed_corrupt_form_witness :
    ((readState [("p", [5])] "p").1 = .error .malformedEnvelope ∧
     isCorruptForm .malformedEnvelope = true) ∧
    ((readState [("q", marshalEnv ⟨sha1Sum [5], [5]⟩)] "q").1 =
        .error .malformedState ∧
     isCorruptForm .malformedState = true) :=
  ⟨malformed_corrupt_form.1 [("p", [5])] "p" [5]
      (by decide) (by decide) (by decide),
   malformed_corrupt_form.2 [("q", marshalEnv ⟨sha1Sum [5], [5]⟩)] "q"
      (marshalEnv ⟨sha1Sum [5], [5]⟩) ⟨sha1Sum [5], [5]⟩
      (by decide) (by decide) (by decide) (by decide)⟩

/-- C7: when the internal load reports no prior state, `initLog` succeeds
with the node's term and vote left as they were; when the load reports any
other error, `initLog` propagates it; when the load succeeds, the node's
term and vote are set from the recovered state. -/
theorem initLog_hydration (n : Node) (fs : FS) (path : String) :
    ((readState (ensureFile fs path) path).1 = .error .noState →
      initLog n fs path = .ok ({ n with logPath := path }, ensureFile fs path)) ∧
    (∀ e : GErr, e ≠ .noState →
      (readState (ensureFile fs path) path).1 = .error e →
      initLog n fs path = .error e) ∧
    (∀ ps : persistentState,
      (readState (ensureFile fs path) path).1 = .ok ps →
      initLog n fs path =
        .ok ({ n with logPath := path,
                      term := ps.CurrentTerm, vote := ps.VotedFor },
             ensureFile fs path)) := by
  refine ⟨?_, ?_, ?_⟩
  · intro h
    simp [initLog, h]
  · intro e he h
    simp [initLog, h, he]
  · intro ps h
    simp [initLog, h]

/-- Witness for C7 at a concrete empty backing file. -/
theorem initLog_hydration_witness :
    initLog sampleNode [("p", [])] "p" =
      .ok ({ sampleNode with logPath := "p" }, [("p", [])]) :=
  (initLog_hydration sampleNode [("p", [])] "p").1 (by decide)

/-- C8 counterexample: `initLog` on a non-existent path creates the empty
file but returns success (`Except.ok`), not the `ErrLogNoState` error — the
no-prior-state report of the internal read is swallowed. -/
theorem initLog_fresh_not_noState :
    initLog sampleNode [] "p" =
      .ok ({ sampleNode with logPath := "p" }, [("p", [])]) ∧
    initLog sampleNode [] "p" ≠ .error .noState := by
  decide

/-- C8 (amended): `initLog` on a non-existent path creates an empty file at
that path and succeeds, the internal `readState` reporting `ErrLogNoState`;
`closeLog` removes the backing file so a subsequent read of the path finds
no file, and reports an I/O error when removal fails. -/
theorem initLog_create_close (n : Node) (fs : FS) (path : String) :
    (fsRead fs path = none →
      fsRead (ensureFile fs path) path = some [] ∧
      (readState (ensureFile fs path) path).1 = .error .noState ∧
      initLog n fs path = .ok ({ n with logPath := path }, ensureFile fs path)) ∧
    (∀ (m : Node) (g g2 : FS), fsRemove g m.logPath = some g2 →
      (closeLog m g).2.2 = none ∧ fsRead g2 m.logPath = none) ∧
    (∀ (m : Node) (g : FS), fsRemove g m.logPath = none →
      (closeLog m g).2.2 = some .ioError) := by
  refine ⟨?_, ?_, ?_⟩
  · intro h
    have hens : ensureFile fs path = fsWrite fs path [] := by
      simp [ensureFile, h]
    have hr : fsRead (ensureFile fs path) path = some [] := by
      rw [hens]
      exact fsRead_fsWrite_self fs path []
    have hrs := readState_empty (ensureFile fs path) path hr
    refine ⟨hr, by rw [hrs], ?_⟩
    simp [initLog, hrs]
  · intro m g g2 hrem
    constructor
    · simp [closeLog, hrem]
    · have h2 : g2 = g.filter (fun e => !(e.1 == m.logPath)) := by
        simp only [fsRemove] at hrem
        split at hrem
        · exact (Option.some.inj hrem).symm
        · cases hrem
      rw [h2]
      exact fsRead_filter_self g m.logPath
  · intro m g hrem
    simp [closeLog, hrem]

/-- Witness for C8 (amended) at concrete file systems. -/
theorem initLog_create_close_witness :
    (fsRead (ensureFile ([] : FS) "p") "p" = some [] ∧
     (readState (ensureFile ([] : FS) "p") "p").1 = .error .noState ∧
     initLog sampleNode [] "p" =
       .ok ({ sampleNode with logPath := "p" }, ensureFile ([] : FS) "p")) ∧
    ((closeLog ⟨0, "", "p"⟩ [("p", [])]).2.2 = none ∧
     fsRead ([] : FS) "p" = none) ∧
    (closeLog sampleNode []).2.2 = some .ioError :=
  ⟨(initLog_create_close sampleNode [] "p").1 (by decide),
   (initLog_create_close sampleNode [] "p").2.1 ⟨0, "", "p"⟩ [("p", [])] []
     (by decide),
   (initLog_create_close sampleNode [] "p").2.2 sampleNode [] (by decide)⟩

/-- C9: `readState` never writes to the backing file — the file system
returned by a read is the input file system in every branch, so legacy files
are never migrated on read. -/
theorem readState_no_write (fs : FS) (path : String) :
    (readState fs path).2 = fs := by
  unfold readState
  split
  · rfl
  · split
    · rfl
    · split
      · rfl
      · split
        · split <;> rfl
        · rfl

/-- C10: `closeLog` unconditionally clears the node's stored log path, even
when removing the backing file fails, and returns the removal outcome to the
caller. -/
theorem closeLog_clears_path (n : Node) (fs : FS) :
    (closeLog n fs).1.logPath = "" ∧
    (∀ fs2 : FS, fsRemove fs n.logPath = some fs2 →
      closeLog n fs = ({ n with logPath := "" }, fs2, none)) ∧
    (fsRemove fs n.logPath = none →
      closeLog n fs = ({ n with logPath := "" }, fs, some .ioError)) := by
  refine ⟨?_, ?_, ?_⟩
  · unfold closeLog
    split <;> rfl
  · intro fs2 h
    simp [closeLog, h]
  · intro h
    simp [closeLog, h]

/-- Witness for C10 at a concrete failing removal. -/
theorem closeLog_clears_path_witness :
    (closeLog sampleNode []).1.logPath = "" ∧
    closeLog sampleNode [] = ({ sampleNode with logPath := "" }, [], some .ioError) :=
  ⟨(closeLog_clears_path sampleNode []).1,
   (closeLog_clears_path sampleNode []).2.2 (by decide)⟩

end Graft
